import Mathlib

/-!
Verification development for the mongython streaming-relay / envelope-encryption
backend (`src/backend/mongython`).  The Python source is embedded shallowly:

* `server_encryption.py` (`ServerEncryption.encrypt_for_client`,
  `ServerEncryption.decrypt_from_client`) is embedded over an abstract layer of
  cryptographic library primitives (`CryptoPrims`): the Python code calls the
  `cryptography` package (RSA-OAEP, AES-GCM, base64, utf-8) as a black box, so
  those library calls appear as fields of `CryptoPrims` together with their
  round-trip contracts.  `os.urandom` is modelled as an explicit byte stream
  `rng : Nat → Nat` with a running counter.
* `encryption.py` (`load_public_key_from_pem`) is embedded likewise.
* `chat.py` (`stream_wrapper`, `save_streamed_message`, the message-processing
  loop of `chat`) is embedded as pure functions over an explicit upstream chunk
  list, with Python exceptions represented by `PyError` values.

A small executable instance `toyPrims` (a toy but law-abiding cipher) is used
to evaluate the embedded code on concrete inputs.
-/

instance {ε α : Type} [DecidableEq ε] [DecidableEq α] :
    DecidableEq (Except ε α) := fun x y =>
  match x, y with
  | .ok a, .ok b =>
    decidable_of_iff (a = b) ⟨fun h => by rw [h], fun h => Except.ok.inj h⟩
  | .error a, .error b =>
    decidable_of_iff (a = b) ⟨fun h => by rw [h], fun h => Except.error.inj h⟩
  | .ok _, .error _ => isFalse (fun h => Except.noConfusion h)
  | .error _, .ok _ => isFalse (fun h => Except.noConfusion h)

/-- Python exceptions that matter on the embedded paths.  `str` mirrors
Python's `str(e)` for these exception classes. -/
inductive PyError where
  | valueError (msg : String)
  | attributeError (msg : String)
  | keyError (field : String)
deriving DecidableEq, Repr

/-- Python's `str(e)`: `ValueError`/`AttributeError` print their message,
`KeyError` prints the missing key in quotes. -/
def PyError.str : PyError → String
  | .valueError m => m
  | .attributeError m => m
  | .keyError f => "'" ++ f ++ "'"

/-- Family of a public key object returned by `load_pem_public_key`
(`rsa` for `RSAPublicKey`, `other` for any non-RSA key class). -/
inductive KeyFamily where
  | rsa
  | other
deriving DecidableEq, Repr

/-- A parsed public-key object: its class family plus an identifier for the
underlying key material. -/
structure PubKey where
  family : KeyFamily
  keyId : Nat
deriving DecidableEq, Repr

/-- The cryptographic library boundary used by `server_encryption.py`.
Each field is one `cryptography`/`base64` library call (with `Except` for the
calls that can raise), together with the round-trip contracts those library
functions guarantee.  `KeyPairMatch pub priv` holds when `priv` is the private
half of the keypair whose public half has id `pub`. -/
structure CryptoPrims where
  loadPem : String → Except String PubKey
  KeyPairMatch : Nat → Nat → Bool
  rsaOaepEncrypt : Nat → List Nat → List Nat
  rsaOaepDecrypt : Nat → List Nat → Except String (List Nat)
  aesGcmEncrypt : List Nat → List Nat → List Nat → List Nat × List Nat
  aesGcmDecrypt : List Nat → List Nat → List Nat → List Nat → Except String (List Nat)
  b64encode : List Nat → String
  b64decode : String → Except String (List Nat)
  utf8Encode : String → List Nat
  utf8Decode : List Nat → Except String String
  rsa_roundtrip : ∀ pub priv data, KeyPairMatch pub priv = true →
    rsaOaepDecrypt priv (rsaOaepEncrypt pub data) = .ok data
  aes_roundtrip : ∀ k iv pt,
    aesGcmDecrypt k iv (aesGcmEncrypt k iv pt).2 (aesGcmEncrypt k iv pt).1 = .ok pt
  b64_roundtrip : ∀ bs, b64decode (b64encode bs) = .ok bs
  utf8_roundtrip : ∀ s, utf8Decode (utf8Encode s) = .ok s

theorem CryptoPrims.b64encode_injective (P : CryptoPrims) {a b : List Nat}
    (h : P.b64encode a = P.b64encode b) : a = b := by
  have ha := P.b64_roundtrip a
  have hb := P.b64_roundtrip b
  rw [h, hb] at ha
  exact (Except.ok.inj ha).symm

theorem CryptoPrims.rsaOaepEncrypt_injective (P : CryptoPrims) {pub priv : Nat}
    (hm : P.KeyPairMatch pub priv = true) {a b : List Nat}
    (h : P.rsaOaepEncrypt pub a = P.rsaOaepEncrypt pub b) : a = b := by
  have ha := P.rsa_roundtrip pub priv a hm
  have hb := P.rsa_roundtrip pub priv b hm
  rw [h, hb] at ha
  exact (Except.ok.inj ha).symm

/-- Consecutive bytes `rng start, rng (start+1), ...` drawn from the entropy
stream: the model of one `os.urandom n` call at stream position `start`. -/
def rngBytes (rng : Nat → Nat) (start n : Nat) : List Nat :=
  (List.range n).map (fun i => rng (start + i))

theorem length_rngBytes (rng : Nat → Nat) (start n : Nat) :
    (rngBytes rng start n).length = n := by
  simp [rngBytes]

/-- The four-field envelope produced by `encrypt_for_client`
(all fields base64 text). -/
structure EnvelopeOut where
  encrypted_content : String
  encrypted_key : String
  iv : String
  tag : String
deriving DecidableEq, Repr

/-- The dict handed to `decrypt_from_client`; any field may be absent
(`chat.py` filters out `None` values before calling it). -/
structure EncDict where
  encrypted_content : Option String
  encrypted_key : Option String
  iv : Option String
  tag : Option String
deriving DecidableEq, Repr

def EnvelopeOut.toDict (e : EnvelopeOut) : EncDict :=
  ⟨some e.encrypted_content, some e.encrypted_key, some e.iv, some e.tag⟩

/-- Embedding of `ServerEncryption.encrypt_for_client`
(`server_encryption.py` lines 95-131).  Draws a 32-byte AES key and a 16-byte
IV from the entropy stream at position `ctr`, loads the recipient PEM
(uncaught library `ValueError` on parse failure), calls `.encrypt` on the key
object (an `AttributeError` when the loaded key is not RSA, since only
`RSAPublicKey` has that method), encrypts the utf-8 message with AES-GCM and
returns the four base64 fields plus the advanced entropy counter. -/
def encrypt_for_client (P : CryptoPrims) (rng : Nat → Nat) (ctr : Nat)
    (message : String) (client_public_key_pem : String) :
    Except PyError (EnvelopeOut × Nat) :=
  let aes_key := rngBytes rng ctr 32
  let iv := rngBytes rng (ctr + 32) 16
  match P.loadPem client_public_key_pem with
  | .error m => .error (.valueError m)
  | .ok pk =>
    match pk.family with
    | .other => .error (.attributeError "object has no attribute 'encrypt'")
    | .rsa =>
      let encrypted_key := P.rsaOaepEncrypt pk.keyId aes_key
      let enc := P.aesGcmEncrypt aes_key iv (P.utf8Encode message)
      .ok (⟨P.b64encode enc.1, P.b64encode encrypted_key,
            P.b64encode iv, P.b64encode enc.2⟩, ctr + 48)

/-- The body of `decrypt_from_client`'s outer `try` block
(`server_encryption.py` lines 136-180): base64-decode the four fields in
source order (a missing dict key raises `KeyError` at the access), unwrap the
AES key with RSA-OAEP (its inner `except ValueError` re-raises with the
prefix `Failed to decrypt AES key: `), AES-GCM-decrypt and utf-8-decode. -/
def decryptBody (P : CryptoPrims) (priv : Nat) (d : EncDict) :
    Except PyError String :=
  match d.encrypted_content with
  | none => .error (.keyError "encrypted_content")
  | some cs =>
    match P.b64decode cs with
    | .error m => .error (.valueError m)
    | .ok ciphertext =>
      match d.encrypted_key with
      | none => .error (.keyError "encrypted_key")
      | some ks =>
        match P.b64decode ks with
        | .error m => .error (.valueError m)
        | .ok ek =>
          match d.iv with
          | none => .error (.keyError "iv")
          | some ivs =>
            match P.b64decode ivs with
            | .error m => .error (.valueError m)
            | .ok iv =>
              match d.tag with
              | none => .error (.keyError "tag")
              | some ts =>
                match P.b64decode ts with
                | .error m => .error (.valueError m)
                | .ok tg =>
                  match P.rsaOaepDecrypt priv ek with
                  | .error m =>
                    .error (.valueError ("Failed to decrypt AES key: " ++ m))
                  | .ok aes_key =>
                    match P.aesGcmDecrypt aes_key iv tg ciphertext with
                    | .error m => .error (.valueError m)
                    | .ok pt =>
                      match P.utf8Decode pt with
                      | .error m => .error (.valueError m)
                      | .ok s => .ok s

/-- Embedding of `ServerEncryption.decrypt_from_client`
(`server_encryption.py` lines 133-188): every exception from the body —
`ValueError` or any other `Exception` — is caught and re-raised as
`ValueError("Failed to decrypt message: " + str(e))`. -/
def decrypt_from_client (P : CryptoPrims) (priv : Nat) (d : EncDict) :
    Except PyError String :=
  match decryptBody P priv d with
  | .ok s => .ok s
  | .error e => .error (.valueError ("Failed to decrypt message: " ++ e.str))

/-- Embedding of `load_public_key_from_pem` (`encryption.py` lines 78-90):
any parse failure, and a parsed key that is not `RSAPublicKey` (the
`TypeError` branch), are caught and re-raised as
`ValueError("Invalid public key format")`. -/
def load_public_key_from_pem (P : CryptoPrims) (pem_data : String) :
    Except PyError PubKey :=
  match P.loadPem pem_data with
  | .error _ => .error (.valueError "Invalid public key format")
  | .ok pk =>
    match pk.family with
    | .rsa => .ok pk
    | .other => .error (.valueError "Invalid public key format")

/-! ### A concrete, law-abiding instance of the library boundary -/

/-- Unary byte-list serialization: each byte `n` becomes `n` copies of `a`
followed by one `b` (an injective stand-in for the base64 codec). -/
def uenc : List Nat → List Char
  | [] => []
  | n :: l => List.replicate n 'a' ++ 'b' :: uenc l

/-- Inverse of `uenc`; `cur` counts the `a`-run read since the last `b`. -/
def udec : List Char → Nat → Option (List Nat)
  | [], cur => if cur = 0 then some [] else none
  | c :: rest, cur =>
    if c = 'a' then udec rest (cur + 1)
    else if c = 'b' then (udec rest 0).map (fun l => cur :: l)
    else none

theorem udec_replicate (rest : List Char) :
    ∀ n cur, udec (List.replicate n 'a' ++ rest) cur = udec rest (cur + n) := by
  intro n
  induction n with
  | zero => intro cur; simp
  | succ k ih =>
    intro cur
    have h1 : List.replicate (k + 1) 'a' ++ rest = 'a' :: (List.replicate k 'a' ++ rest) := by
      simp [List.replicate_succ]
    have h2 : cur + (k + 1) = (cur + 1) + k := by omega
    rw [h1, h2, ← ih (cur + 1)]
    simp [udec]

theorem udec_uenc (l : List Nat) : udec (uenc l) 0 = some l := by
  induction l with
  | nil => rfl
  | cons n t ih =>
    show udec (List.replicate n 'a' ++ 'b' :: uenc t) 0 = some (n :: t)
    rw [udec_replicate ('b' :: uenc t) n 0]
    simp [udec, ih]

/-- Toy PEM parser: strings tagged `RSA:` parse as RSA keys, strings tagged
`EC:` parse as non-RSA keys, anything else fails like the library parser.
The key id is the string length. -/
def toyLoadPem (s : String) : Except String PubKey :=
  match s.data with
  | 'R' :: 'S' :: 'A' :: ':' :: _ => .ok ⟨.rsa, s.length⟩
  | 'E' :: 'C' :: ':' :: _ => .ok ⟨.other, s.length⟩
  | _ => .error "Unable to load PEM file"

def toyRsaEncrypt (pub : Nat) (data : List Nat) : List Nat := pub :: data

def toyRsaDecrypt (priv : Nat) (w : List Nat) : Except String (List Nat) :=
  match w with
  | [] => .error "Decryption failed."
  | h :: t => if h = priv then .ok t else .error "Decryption failed."

def toyAesEncrypt (k iv pt : List Nat) : List Nat × List Nat :=
  (pt.map (fun b => b + (k.sum + iv.sum)), [k.sum, iv.sum])

def toyAesDecrypt (k iv tg ct : List Nat) : Except String (List Nat) :=
  if tg = [k.sum, iv.sum] then .ok (ct.map (fun b => b - (k.sum + iv.sum)))
  else .error ""

def toyB64encode (bs : List Nat) : String := String.mk (uenc bs)

def toyB64decode (s : String) : Except String (List Nat) :=
  match udec s.data 0 with
  | some l => .ok l
  | none => .error "Invalid base64-encoded string"

def toyUtf8Encode (s : String) : List Nat := s.data.map Char.toNat

def toyUtf8Decode (bs : List Nat) : Except String String :=
  .ok (String.mk (bs.map Char.ofNat))

/-- The toy library instance used to run the embedded code on concrete
inputs. -/
def toyPrims : CryptoPrims where
  loadPem := toyLoadPem
  KeyPairMatch := fun pub priv => pub == priv
  rsaOaepEncrypt := toyRsaEncrypt
  rsaOaepDecrypt := toyRsaDecrypt
  aesGcmEncrypt := toyAesEncrypt
  aesGcmDecrypt := toyAesDecrypt
  b64encode := toyB64encode
  b64decode := toyB64decode
  utf8Encode := toyUtf8Encode
  utf8Decode := toyUtf8Decode
  rsa_roundtrip := by
    intro pub priv data hm
    have : pub = priv := by simpa using hm
    subst this
    simp [toyRsaEncrypt, toyRsaDecrypt]
  aes_roundtrip := by
    intro k iv pt
    have h : (fun b => b - (k.sum + iv.sum)) ∘ (fun b => b + (k.sum + iv.sum)) = id := by
      funext b
      simp
    simp [toyAesEncrypt, toyAesDecrypt, List.map_map, h]
  b64_roundtrip := by
    intro bs
    simp [toyB64encode, toyB64decode, udec_uenc]
  utf8_roundtrip := by
    intro s
    have h : Char.ofNat ∘ Char.toNat = id := by
      funext c
      simp [Char.ofNat_toNat]
    simp [toyUtf8Encode, toyUtf8Decode, List.map_map, h]

/-! ### Stream relay (`chat.py`, `stream_wrapper` and `save_streamed_message`) -/

/-- One streaming delta object (`chunk.choices[0].delta`). -/
structure Delta where
  content : Option String
deriving DecidableEq, Repr

/-- One choice of a streaming chunk. -/
structure Choice where
  finish_reason : Option String
  delta : Option Delta
deriving DecidableEq, Repr

/-- One upstream chunk.  `error` models the optional `chunk.error`
attribute. -/
structure Chunk where
  choices : List Choice
  error : Option String
deriving DecidableEq, Repr

/-- The content delta the loop reads from a chunk: first choice's delta
content, or the empty string when absent (`None` and `""` are both falsy at
the `if not content` guard). -/
def chunkContent (c : Chunk) : String :=
  match c.choices with
  | [] => ""
  | ch :: _ =>
    match ch.delta with
    | none => ""
    | some d => d.content.getD ""

/-- The chunk's error attribute, with falsy values (absent or empty string)
normalized away, matching `hasattr(chunk, 'error') and chunk.error`. -/
def chunkError (c : Chunk) : Option String :=
  match c.error with
  | none => none
  | some e => if e = "" then none else some e

/-- One encrypted SSE unit yielded to the client (the `response_data`
dictionary of `stream_wrapper`). -/
structure StreamUnit where
  content : String
  encrypted_key : String
  iv : String
  tag : String
  is_encrypted : Bool
  role : String
deriving DecidableEq, Repr

/-- Builds the yielded unit from the envelope returned by
`encrypt_for_client`. -/
def mkUnit (e : EnvelopeOut) : StreamUnit :=
  ⟨e.encrypted_content, e.encrypted_key, e.iv, e.tag, true, "assistant"⟩

/-- State left by the chunk-consuming loop of `stream_wrapper`: the units
yielded so far, the accumulated plaintext, the `has_content` flag, the
entropy stream position, and the exception (if any) that aborted the loop. -/
structure LoopResult where
  emitted : List StreamUnit
  accumulated : String
  has_content : Bool
  ctr : Nat
  raised : Option PyError
deriving DecidableEq, Repr

/-- The `async for` loop of `stream_wrapper` (`chat.py` lines 145-207):
skip chunks with no choices; raise on a truthy chunk error; skip chunks with
falsy content; otherwise accumulate, then raise if the recipient key is
falsy, then encrypt the delta alone and yield it, wrapping any encryption
failure as `ValueError("Encryption/Yield failed: ...")` which aborts the
stream. -/
def streamLoop (P : CryptoPrims) (rng : Nat → Nat) (pem : Option String) :
    List Chunk → String → Bool → Nat → LoopResult
  | [], acc, hc, ctr => ⟨[], acc, hc, ctr, none⟩
  | c :: cs, acc, hc, ctr =>
    match c.choices with
    | [] => streamLoop P rng pem cs acc hc ctr
    | _ :: _ =>
      match chunkError c with
      | some err => ⟨[], acc, hc, ctr, some (.valueError ("LLM error: " ++ err))⟩
      | none =>
        if chunkContent c = "" then streamLoop P rng pem cs acc hc ctr
        else
          match pem with
          | none => ⟨[], acc ++ chunkContent c, true, ctr,
              some (.valueError "Cannot stream without encryption key")⟩
          | some pemS =>
            if pemS = "" then ⟨[], acc ++ chunkContent c, true, ctr,
                some (.valueError "Cannot stream without encryption key")⟩
            else
              match encrypt_for_client P rng ctr (chunkContent c) pemS with
              | .error e => ⟨[], acc ++ chunkContent c, true, ctr,
                  some (.valueError ("Encryption/Yield failed: " ++ e.str))⟩
              | .ok r =>
                let rest := streamLoop P rng pem cs (acc ++ chunkContent c) true r.2
                ⟨mkUnit r.1 :: rest.emitted, rest.accumulated, rest.has_content,
                  rest.ctr, rest.raised⟩

/-- The background save task scheduled by `stream_wrapper`
(arguments of the `background_tasks.add_task(save_streamed_message, ...)`
call). -/
structure SaveTask where
  conversation_id : Nat
  user_message_id : Nat
  model_name : String
  full_content : String
  user_public_key : String
deriving DecidableEq, Repr

/-- Observable outcome of one `stream_wrapper` invocation: the units yielded
to the client, the accumulated plaintext, the exception escaping the
generator (if any), and the background save task scheduled (if any). -/
structure StreamResult where
  emitted : List StreamUnit
  accumulated : String
  raised : Option PyError
  scheduledSave : Option SaveTask
deriving DecidableEq, Repr

/-- The post-loop scheduling logic of `stream_wrapper` (`chat.py` lines
209-232): if no content was received the generator just returns without
scheduling; otherwise the save task is scheduled exactly when conversation,
background tasks, user-message id, model name and the accumulated content
are all truthy and the user public key is truthy as well. -/
def scheduleSave (conversation : Option Nat) (user_public_key : Option String)
    (background_tasks : Bool) (user_message_id : Option Nat)
    (model_name : Option String) (lr : LoopResult) : Option SaveTask :=
  if lr.has_content = false then none
  else
    match conversation, user_message_id, model_name with
    | some conv, some umid, some mn =>
      if background_tasks ∧ mn ≠ "" ∧ lr.accumulated ≠ "" then
        match user_public_key with
        | some k =>
          if k = "" then none
          else some ⟨conv, umid, mn, lr.accumulated, k⟩
        | none => none
      else none
    | _, _, _ => none

/-- Embedding of `stream_wrapper` (`chat.py` lines 137-240).  `upstream` is
the list of chunks the upstream generator yields before it either exhausts
(`upstreamError = none`) or raises (`upstreamError = some e`).  On any
exception — from the loop itself or, once the loop has consumed every
delivered chunk, from the upstream — the `except` block re-raises it; no
save is scheduled and no further unit is yielded.  On normal exhaustion the
post-loop logic (`scheduleSave`) runs. -/
def stream_wrapper (P : CryptoPrims) (rng : Nat → Nat) (ctr : Nat)
    (upstream : List Chunk) (upstreamError : Option PyError)
    (conversation : Option Nat) (user_public_key : Option String)
    (background_tasks : Bool) (user_message_id : Option Nat)
    (model_name : Option String) : StreamResult :=
  let lr := streamLoop P rng user_public_key upstream "" false ctr
  match lr.raised with
  | some e => ⟨lr.emitted, lr.accumulated, some e, none⟩
  | none =>
    match upstreamError with
    | some e => ⟨lr.emitted, lr.accumulated, some e, none⟩
    | none =>
      ⟨lr.emitted, lr.accumulated, none,
        scheduleSave conversation user_public_key background_tasks
          user_message_id model_name lr⟩

/-- A conversation document as far as the save path needs it. -/
structure Conversation where
  id : Nat
  userId : Nat
deriving DecidableEq, Repr

/-- The durable assistant message written by `save_streamed_message`. -/
structure StoredMessage where
  role : String
  conversation_id : Nat
  parent_message_id : Option Nat
  model_id : String
  env : EnvelopeOut
deriving DecidableEq, Repr

/-- Outcome of the background save task: the message written (if any) and
the exception escaping the task (if any). -/
structure SaveResult where
  savedMessage : Option StoredMessage
  raised : Option PyError
deriving DecidableEq, Repr

/-- The `try` body of `save_streamed_message` (`chat.py` lines 71-128):
empty content raises `ValueError`; a missing conversation returns without
saving; a falsy user public key raises `ValueError`; an encryption failure
is re-raised as `ValueError`; otherwise the assistant `Message` is written
with the re-encrypted envelope. -/
def saveBody (P : CryptoPrims) (rng : Nat → Nat) (ctr : Nat)
    (convLookup : String → Option Conversation)
    (conversation_id : String) (user_message_id : Nat) (model_name : String)
    (full_content : String) (user_public_key : String) :
    Except PyError (Option StoredMessage) :=
  if full_content = "" then .error (.valueError "Empty content provided for saving")
  else
    match convLookup conversation_id with
    | none => .ok none
    | some conversation =>
      if user_public_key = "" then
        .error (.valueError "Missing user public key for saving")
      else
        match encrypt_for_client P rng ctr full_content user_public_key with
        | .error _ => .error (.valueError "Failed to encrypt message for saving")
        | .ok r =>
          .ok (some ⟨"assistant", conversation.id, some user_message_id,
                model_name, r.1⟩)

/-- Embedding of `save_streamed_message` (`chat.py` lines 61-133): the
trailing `except ValueError` / `except Exception` handlers log and swallow
every failure of the body, so the task never lets an exception escape. -/
def save_streamed_message (P : CryptoPrims) (rng : Nat → Nat) (ctr : Nat)
    (convLookup : String → Option Conversation)
    (conversation_id : String) (user_message_id : Nat) (model_name : String)
    (full_content : String) (user_public_key : String) : SaveResult :=
  match saveBody P rng ctr convLookup conversation_id user_message_id
      model_name full_content user_public_key with
  | .ok m => ⟨m, none⟩
  | .error _ => ⟨none, none⟩

/-! ### Inbound message processing (`chat.py`, the loop of `chat`) -/

/-- One message of the request body, after pydantic validation
(`is_encrypted` coerced to `Bool`, absent treated as `False` by
`msg.get('is_encrypted', False)`). -/
structure ClientMsg where
  role : String
  is_encrypted : Bool
  encrypted_content : Option String
  encrypted_key : Option String
  iv : Option String
  tag : Option String
  msgId : Option String
deriving DecidableEq, Repr

/-- An HTTP error response (`fastapi.HTTPException`). -/
structure HTTPErr where
  statusCode : Nat
  detail : String
deriving DecidableEq, Repr

/-- Starlette's `str(HTTPException)`: `f"{status_code}: {detail}"`. -/
def HTTPErr.str (e : HTTPErr) : String :=
  toString e.statusCode ++ ": " ++ e.detail

/-- `msg.get('id', 'N/A')`. -/
def msgIdOrNA (m : ClientMsg) : String := m.msgId.getD "N/A"

/-- The per-message `except Exception` handler of the processing loop
(`chat.py` lines 395-397): every inner `HTTPException` is caught and
re-raised as a 400 whose detail embeds `str(e)`. -/
def wrapMsgErr (m : ClientMsg) (e : HTTPErr) : HTTPErr :=
  ⟨400, "Error processing message " ++ msgIdOrNA m ++ ": " ++ e.str⟩

/-- Embedding of the message-processing loop of `chat`
(`chat.py` lines 353-397): an unencrypted message raises 400
`All messages must be encrypted`; a falsy `encrypted_content` raises 400
`Encrypted message missing required fields`; a decryption failure raises 400
`Failed to decrypt message <id>`; each failure is re-wrapped by the outer
per-message handler; empty decrypted content is skipped; successful
non-empty decryptions are appended in order as `(role, content)` pairs. -/
def processMessages (P : CryptoPrims) (priv : Nat) :
    List ClientMsg → Except HTTPErr (List (String × String))
  | [] => .ok []
  | m :: rest =>
    if m.is_encrypted = false then
      .error (wrapMsgErr m ⟨400, "All messages must be encrypted"⟩)
    else
      match m.encrypted_content with
      | none => .error (wrapMsgErr m ⟨400, "Encrypted message missing required fields"⟩)
      | some ec =>
        if ec = "" then
          .error (wrapMsgErr m ⟨400, "Encrypted message missing required fields"⟩)
        else
          match decrypt_from_client P priv ⟨some ec, m.encrypted_key, m.iv, m.tag⟩ with
          | .error _ =>
            .error (wrapMsgErr m ⟨400, "Failed to decrypt message " ++ msgIdOrNA m⟩)
          | .ok s =>
            if s = "" then processMessages P priv rest
            else
              match processMessages P priv rest with
              | .error e => .error e
              | .ok ctx => .ok ((m.role, s) :: ctx)

/-- The upstream context the `chat` endpoint forwards to the generator:
built only when the whole processing loop succeeds (the LLM call comes
after the loop, so a rejection forwards nothing upstream). -/
def chatUpstreamContext (P : CryptoPrims) (priv : Nat) (msgs : List ClientMsg) :
    Option (List (String × String)) :=
  (processMessages P priv msgs).toOption

/-! ### Spec-side helpers used in theorem statements -/

/-- A plain content chunk carrying one delta, as the upstream generator
produces it. -/
def mkContentChunk (s : String) : Chunk :=
  ⟨[⟨none, some ⟨some s⟩⟩], none⟩

/-- The non-empty content deltas of an upstream sequence, in arrival
order. -/
def nonemptyContents (chunks : List Chunk) : List String :=
  chunks.filterMap (fun c => if chunkContent c = "" then none else some (chunkContent c))

/-- The expected client-visible output: each delta encrypted alone, in
order, threading the entropy counter exactly as the relay does. -/
def encryptDeltas (P : CryptoPrims) (rng : Nat → Nat) (pem : String) :
    List String → Nat → List StreamUnit
  | [], _ => []
  | d :: ds, ctr =>
    match encrypt_for_client P rng ctr d pem with
    | .ok r => mkUnit r.1 :: encryptDeltas P rng pem ds r.2
    | .error _ => []

/-- Concatenation of a list of strings, in order. -/
def concatAll : List String → String
  | [] => ""
  | s :: l => s ++ concatAll l

/-- The envelope `encrypt_for_client` produces at entropy position `ctr`
for recipient key id `kid`. -/
def mkEnvelope (P : CryptoPrims) (rng : Nat → Nat) (ctr : Nat)
    (msg : String) (kid : Nat) : EnvelopeOut :=
  ⟨P.b64encode (P.aesGcmEncrypt (rngBytes rng ctr 32) (rngBytes rng (ctr + 32) 16)
      (P.utf8Encode msg)).1,
   P.b64encode (P.rsaOaepEncrypt kid (rngBytes rng ctr 32)),
   P.b64encode (rngBytes rng (ctr + 32) 16),
   P.b64encode (P.aesGcmEncrypt (rngBytes rng ctr 32) (rngBytes rng (ctr + 32) 16)
      (P.utf8Encode msg)).2⟩

/-- The `(role, decrypted content)` pair a request message contributes to
the upstream context, if any. -/
def contextOf (P : CryptoPrims) (priv : Nat) (m : ClientMsg) :
    Option (String × String) :=
  if m.is_encrypted = false then none
  else
    match m.encrypted_content with
    | none => none
    | some ec =>
      if ec = "" then none
      else
        match decrypt_from_client P priv ⟨some ec, m.encrypted_key, m.iv, m.tag⟩ with
        | .error _ => none
        | .ok s => if s = "" then none else some (m.role, s)

/-! ### Shared lemmas -/

theorem str_append_empty (s : String) : s ++ "" = s := by
  cases s with
  | mk d =>
    show String.mk (d ++ []) = String.mk d
    rw [List.append_nil]

theorem str_empty_append (s : String) : "" ++ s = s := by
  cases s with
  | mk d =>
    show String.mk ([] ++ d) = String.mk d
    rw [List.nil_append]

theorem str_append_assoc (a b c : String) : a ++ b ++ c = a ++ (b ++ c) := by
  cases a with
  | mk x =>
    cases b with
    | mk y =>
      cases c with
      | mk z =>
        show String.mk (x ++ y ++ z) = String.mk (x ++ (y ++ z))
        rw [List.append_assoc]

theorem encrypt_for_client_eq (P : CryptoPrims) (rng : Nat → Nat) (ctr : Nat)
    (msg pem : String) (pk : PubKey)
    (hload : P.loadPem pem = .ok pk) (hfam : pk.family = .rsa) :
    encrypt_for_client P rng ctr msg pem = .ok (mkEnvelope P rng ctr msg pk.keyId, ctr + 48) := by
  obtain ⟨fam, kid⟩ := pk
  simp only [PubKey.family] at hfam
  subst hfam
  unfold encrypt_for_client
  rw [hload]
  rfl

theorem encrypt_for_client_loadErr (P : CryptoPrims) (rng : Nat → Nat)
    (ctr : Nat) (msg pem : String) (m : String)
    (hload : P.loadPem pem = .error m) :
    encrypt_for_client P rng ctr msg pem = .error (.valueError m) := by
  unfold encrypt_for_client
  rw [hload]

theorem encrypt_for_client_nonRsa (P : CryptoPrims) (rng : Nat → Nat)
    (ctr : Nat) (msg pem : String) (pk : PubKey)
    (hload : P.loadPem pem = .ok pk) (hfam : pk.family = .other) :
    encrypt_for_client P rng ctr msg pem =
      .error (.attributeError "object has no attribute 'encrypt'") := by
  obtain ⟨fam, kid⟩ := pk
  simp only [PubKey.family] at hfam
  subst hfam
  unfold encrypt_for_client
  rw [hload]

theorem nonemptyContents_cons_empty (c : Chunk) (cs : List Chunk)
    (h : chunkContent c = "") :
    nonemptyContents (c :: cs) = nonemptyContents cs := by
  simp [nonemptyContents, List.filterMap_cons, h]

theorem nonemptyContents_cons_ne (c : Chunk) (cs : List Chunk)
    (h : ¬chunkContent c = "") :
    nonemptyContents (c :: cs) = chunkContent c :: nonemptyContents cs := by
  simp [nonemptyContents, List.filterMap_cons, h]

theorem concatAll_nonempty_eq (chunks : List Chunk) :
    concatAll (nonemptyContents chunks) = concatAll (chunks.map chunkContent) := by
  induction chunks with
  | nil => rfl
  | cons c cs ih =>
    by_cases h : chunkContent c = ""
    · rw [nonemptyContents_cons_empty c cs h, List.map_cons, h]
      show concatAll (nonemptyContents cs) = "" ++ concatAll (List.map chunkContent cs)
      rw [ih]
      rfl
    · rw [nonemptyContents_cons_ne c cs h, List.map_cons]
      show chunkContent c ++ concatAll (nonemptyContents cs)
        = chunkContent c ++ concatAll (List.map chunkContent cs)
      rw [ih]

theorem length_encryptDeltas (P : CryptoPrims) (rng : Nat → Nat) (pem : String)
    (pk : PubKey) (hload : P.loadPem pem = .ok pk) (hfam : pk.family = .rsa) :
    ∀ ds ctr, (encryptDeltas P rng pem ds ctr).length = ds.length := by
  intro ds
  induction ds with
  | nil => intro ctr; rfl
  | cons d dt ih =>
    intro ctr
    rw [show encryptDeltas P rng pem (d :: dt) ctr
        = (match encrypt_for_client P rng ctr d pem with
           | .ok r => mkUnit r.1 :: encryptDeltas P rng pem dt r.2
           | .error _ => []) from rfl]
    rw [encrypt_for_client_eq P rng ctr d pem pk hload hfam]
    simp [ih]

theorem encryptDeltas_cons (P : CryptoPrims) (rng : Nat → Nat) (pem : String)
    (pk : PubKey) (hload : P.loadPem pem = .ok pk) (hfam : pk.family = .rsa)
    (d : String) (ds : List String) (ctr : Nat) :
    encryptDeltas P rng pem (d :: ds) ctr
      = mkUnit (mkEnvelope P rng ctr d pk.keyId) :: encryptDeltas P rng pem ds (ctr + 48) := by
  rw [show encryptDeltas P rng pem (d :: ds) ctr
      = (match encrypt_for_client P rng ctr d pem with
         | .ok r => mkUnit r.1 :: encryptDeltas P rng pem ds r.2
         | .error _ => []) from rfl]
  rw [encrypt_for_client_eq P rng ctr d pem pk hload hfam]

theorem length_nonemptyContents (chunks : List Chunk) :
    (nonemptyContents chunks).length
      = (chunks.filter (fun c => !(chunkContent c == ""))).length := by
  induction chunks with
  | nil => rfl
  | cons c cs ih =>
    by_cases h : chunkContent c = ""
    · simp [nonemptyContents, List.filterMap_cons, h, List.filter_cons] at ih ⊢
      exact ih
    · simp [nonemptyContents, List.filterMap_cons, h, List.filter_cons] at ih ⊢
      exact ih

theorem streamLoop_clean (P : CryptoPrims) (rng : Nat → Nat) (pem : String)
    (pk : PubKey) (hpem : pem ≠ "")
    (hload : P.loadPem pem = .ok pk) (hfam : pk.family = .rsa) :
    ∀ chunks acc hc ctr, (∀ c ∈ chunks, chunkError c = none) →
      streamLoop P rng (some pem) chunks acc hc ctr =
        ⟨encryptDeltas P rng pem (nonemptyContents chunks) ctr,
         acc ++ concatAll (nonemptyContents chunks),
         hc || !(nonemptyContents chunks).isEmpty,
         ctr + 48 * (nonemptyContents chunks).length,
         none⟩ := by
  intro chunks
  induction chunks with
  | nil =>
    intro acc hc ctr _
    simp [streamLoop, nonemptyContents, encryptDeltas, concatAll, str_append_empty]
  | cons c cs ih =>
    intro acc hc ctr herr
    have hce : chunkError c = none := herr c (List.mem_cons_self c cs)
    have herr2 : ∀ x ∈ cs, chunkError x = none :=
      fun x hx => herr x (List.mem_cons_of_mem c hx)
    cases hch : c.choices with
    | nil =>
      have hcc : chunkContent c = "" := by simp [chunkContent, hch]
      simp only [streamLoop, hch]
      rw [ih acc hc ctr herr2]
      simp [nonemptyContents, List.filterMap_cons, hcc]
    | cons ch cht =>
      by_cases hcc : chunkContent c = ""
      · simp only [streamLoop, hch, hce, hcc, if_pos rfl]
        rw [ih acc hc ctr herr2]
        simp [nonemptyContents, List.filterMap_cons, hcc]
      · simp only [streamLoop, hch, hce, if_neg hcc, if_neg hpem]
        rw [encrypt_for_client_eq P rng ctr (chunkContent c) pem pk hload hfam]
        show LoopResult.mk
            (mkUnit (mkEnvelope P rng ctr (chunkContent c) pk.keyId) ::
              (streamLoop P rng (some pem) cs (acc ++ chunkContent c) true (ctr + 48)).emitted)
            ((streamLoop P rng (some pem) cs (acc ++ chunkContent c) true (ctr + 48)).accumulated)
            ((streamLoop P rng (some pem) cs (acc ++ chunkContent c) true (ctr + 48)).has_content)
            ((streamLoop P rng (some pem) cs (acc ++ chunkContent c) true (ctr + 48)).ctr)
            ((streamLoop P rng (some pem) cs (acc ++ chunkContent c) true (ctr + 48)).raised)
          = LoopResult.mk
            (encryptDeltas P rng pem (nonemptyContents (c :: cs)) ctr)
            (acc ++ concatAll (nonemptyContents (c :: cs)))
            (hc || !(nonemptyContents (c :: cs)).isEmpty)
            (ctr + 48 * (nonemptyContents (c :: cs)).length)
            none
        rw [ih (acc ++ chunkContent c) true (ctr + 48) herr2]
        rw [nonemptyContents_cons_ne c cs hcc]
        rw [encryptDeltas_cons P rng pem pk hload hfam (chunkContent c) (nonemptyContents cs) ctr]
        simp only [LoopResult.mk.injEq]
        refine ⟨trivial, ?_, ?_, ?_, trivial⟩
        · show (acc ++ chunkContent c) ++ concatAll (nonemptyContents cs)
            = acc ++ (chunkContent c ++ concatAll (nonemptyContents cs))
          exact str_append_assoc acc (chunkContent c) (concatAll (nonemptyContents cs))
        · simp
        · show (ctr + 48) + 48 * (nonemptyContents cs).length
            = ctr + 48 * ((nonemptyContents cs).length + 1)
          omega

theorem streamLoop_nocontent (P : CryptoPrims) (rng : Nat → Nat)
    (pem : Option String) :
    ∀ chunks acc hc ctr, (∀ c ∈ chunks, chunkContent c = "") →
      (streamLoop P rng pem chunks acc hc ctr).emitted = [] ∧
      (streamLoop P rng pem chunks acc hc ctr).has_content = hc := by
  intro chunks
  induction chunks with
  | nil => intro acc hc ctr _; exact ⟨rfl, rfl⟩
  | cons c cs ih =>
    intro acc hc ctr h
    have hcc : chunkContent c = "" := h c (List.mem_cons_self c cs)
    have h2 : ∀ x ∈ cs, chunkContent x = "" :=
      fun x hx => h x (List.mem_cons_of_mem c hx)
    cases hch : c.choices with
    | nil =>
      simp only [streamLoop, hch]
      exact ih acc hc ctr h2
    | cons ch cht =>
      cases hce : chunkError c with
      | some err => simp [streamLoop, hch, hce]
      | none =>
        simp only [streamLoop, hch, hce, hcc, if_pos rfl]
        exact ih acc hc ctr h2

theorem streamLoop_encrypt_fails (P : CryptoPrims) (rng : Nat → Nat)
    (pem : String) (m : String) (hpem : pem ≠ "")
    (hload : P.loadPem pem = .error m) :
    ∀ chunks acc hc ctr, (∀ c ∈ chunks, chunkError c = none) →
      (∃ c ∈ chunks, chunkContent c ≠ "") →
      (streamLoop P rng (some pem) chunks acc hc ctr).emitted = [] ∧
      (streamLoop P rng (some pem) chunks acc hc ctr).raised
        = some (.valueError ("Encryption/Yield failed: " ++ m)) := by
  intro chunks
  induction chunks with
  | nil => intro acc hc ctr _ hex; exact absurd hex (by simp)
  | cons c cs ih =>
    intro acc hc ctr herr hex
    have hce : chunkError c = none := herr c (List.mem_cons_self c cs)
    have herr2 : ∀ x ∈ cs, chunkError x = none :=
      fun x hx => herr x (List.mem_cons_of_mem c hx)
    by_cases hcc : chunkContent c = ""
    · have hex2 : ∃ x ∈ cs, chunkContent x ≠ "" := by
        obtain ⟨x, hx, hne⟩ := hex
        cases List.mem_cons.mp hx with
        | inl heq => exact absurd (heq ▸ hcc) hne
        | inr hmem => exact ⟨x, hmem, hne⟩
      cases hch : c.choices with
      | nil =>
        simp only [streamLoop, hch]
        exact ih acc hc ctr herr2 hex2
      | cons ch cht =>
        simp only [streamLoop, hch, hce, hcc, if_pos rfl]
        exact ih acc hc ctr herr2 hex2
    · cases hch : c.choices with
      | nil =>
        exact absurd (by simp [chunkContent, hch]) hcc
      | cons ch cht =>
        simp only [streamLoop, hch, hce, if_neg hcc, if_neg hpem]
        rw [encrypt_for_client_loadErr P rng ctr (chunkContent c) pem m hload]
        exact ⟨rfl, rfl⟩

theorem streamLoop_no_key (P : CryptoPrims) (rng : Nat → Nat)
    (pem : Option String) (hkey : pem = none ∨ pem = some "") :
    ∀ chunks acc hc ctr, (∀ c ∈ chunks, chunkError c = none) →
      (∃ c ∈ chunks, chunkContent c ≠ "") →
      (streamLoop P rng pem chunks acc hc ctr).emitted = [] ∧
      (streamLoop P rng pem chunks acc hc ctr).raised
        = some (.valueError "Cannot stream without encryption key") := by
  intro chunks
  induction chunks with
  | nil => intro acc hc ctr _ hex; exact absurd hex (by simp)
  | cons c cs ih =>
    intro acc hc ctr herr hex
    have hce : chunkError c = none := herr c (List.mem_cons_self c cs)
    have herr2 : ∀ x ∈ cs, chunkError x = none :=
      fun x hx => herr x (List.mem_cons_of_mem c hx)
    by_cases hcc : chunkContent c = ""
    · have hex2 : ∃ x ∈ cs, chunkContent x ≠ "" := by
        obtain ⟨x, hx, hne⟩ := hex
        cases List.mem_cons.mp hx with
        | inl heq => exact absurd (heq ▸ hcc) hne
        | inr hmem => exact ⟨x, hmem, hne⟩
      cases hch : c.choices with
      | nil =>
        simp only [streamLoop, hch]
        exact ih acc hc ctr herr2 hex2
      | cons ch cht =>
        simp only [streamLoop, hch, hce, hcc, if_pos rfl]
        exact ih acc hc ctr herr2 hex2
    · cases hch : c.choices with
      | nil =>
        exact absurd (by simp [chunkContent, hch]) hcc
      | cons ch cht =>
        cases hkey with
        | inl hnone =>
          subst hnone
          simp [streamLoop, hch, hce, if_neg hcc]
        | inr hempty =>
          subst hempty
          simp only [streamLoop, hch, hce, if_neg hcc, if_pos rfl]
          exact ⟨rfl, rfl⟩

/-! ### Claims about the envelope cipher -/

/-- C4: for all plaintexts and valid RSA keypairs, decrypting the envelope
produced by `encrypt_for_client` with the matching private key returns
exactly the original plaintext. -/
theorem claim_C4_envelope_roundtrip (P : CryptoPrims) (rng : Nat → Nat)
    (ctr : Nat) (msg pem : String) (pk : PubKey) (priv : Nat)
    (env : EnvelopeOut) (c2 : Nat)
    (hload : P.loadPem pem = .ok pk) (hfam : pk.family = .rsa)
    (hmatch : P.KeyPairMatch pk.keyId priv = true)
    (henc : encrypt_for_client P rng ctr msg pem = .ok (env, c2)) :
    decrypt_from_client P priv env.toDict = .ok msg := by
  rw [encrypt_for_client_eq P rng ctr msg pem pk hload hfam] at henc
  have h1 := Except.ok.inj henc
  have henv : mkEnvelope P rng ctr msg pk.keyId = env := congrArg Prod.fst h1
  subst henv
  have hrsa : ∀ data, P.rsaOaepDecrypt priv (P.rsaOaepEncrypt pk.keyId data) = .ok data :=
    fun data => P.rsa_roundtrip pk.keyId priv data hmatch
  simp [decrypt_from_client, decryptBody, EnvelopeOut.toDict, mkEnvelope,
    P.b64_roundtrip, hrsa, P.aes_roundtrip, P.utf8_roundtrip]

set_option maxRecDepth 100000 in
/-- Witness for C4 at a concrete input: the toy instance decrypts what it
encrypted. -/
theorem claim_C4_envelope_roundtrip_witness :
    decrypt_from_client toyPrims 5
      (EnvelopeOut.toDict (mkEnvelope toyPrims (fun _ => 0) 0 "hi" 5)) = .ok "hi" :=
  claim_C4_envelope_roundtrip toyPrims (fun _ => 0) 0 "hi" "RSA:h" ⟨.rsa, 5⟩ 5
    (mkEnvelope toyPrims (fun _ => 0) 0 "hi" 5) 48
    (by decide) rfl (by decide) (by decide)

set_option maxRecDepth 100000 in
/-- Counterexample for C3: the IV drawn by `encrypt_for_client` is 16 bytes
(128 bits), not the 12 bytes (96 bits) the claim states — here the `iv`
field of a concrete envelope decodes to a 16-byte string. -/
theorem claim_C3_iv_16_bytes_cx :
    encrypt_for_client toyPrims (fun _ => 0) 0 "hi" "RSA:h"
      = .ok (mkEnvelope toyPrims (fun _ => 0) 0 "hi" 5, 48) ∧
    toyPrims.b64decode (mkEnvelope toyPrims (fun _ => 0) 0 "hi" 5).iv
      = .ok (List.replicate 16 0) ∧
    (List.replicate 16 (0 : Nat)).length ≠ 12 := by
  decide

/-- C3 (amended): every call draws a fresh 32-byte (256-bit) AES key and a
fresh 16-byte (128-bit) IV from the entropy stream; two calls whose entropy
draws differ produce envelopes with different `iv` and different
`encrypted_key`. -/
theorem claim_C3_fresh_key_iv (P : CryptoPrims) (rng : Nat → Nat)
    (c1 c2 : Nat) (msg pem : String) (pk : PubKey) (priv : Nat)
    (env1 env2 : EnvelopeOut) (r1 r2 : Nat)
    (hload : P.loadPem pem = .ok pk) (hfam : pk.family = .rsa)
    (hmatch : P.KeyPairMatch pk.keyId priv = true)
    (hkey : rngBytes rng c1 32 ≠ rngBytes rng c2 32)
    (hiv : rngBytes rng (c1 + 32) 16 ≠ rngBytes rng (c2 + 32) 16)
    (h1 : encrypt_for_client P rng c1 msg pem = .ok (env1, r1))
    (h2 : encrypt_for_client P rng c2 msg pem = .ok (env2, r2)) :
    (rngBytes rng c1 32).length = 32 ∧
    (rngBytes rng (c1 + 32) 16).length = 16 ∧
    P.b64decode env1.iv = .ok (rngBytes rng (c1 + 32) 16) ∧
    P.b64decode env1.encrypted_key = .ok (P.rsaOaepEncrypt pk.keyId (rngBytes rng c1 32)) ∧
    env1.iv ≠ env2.iv ∧
    env1.encrypted_key ≠ env2.encrypted_key := by
  rw [encrypt_for_client_eq P rng c1 msg pem pk hload hfam] at h1
  rw [encrypt_for_client_eq P rng c2 msg pem pk hload hfam] at h2
  have he1 : mkEnvelope P rng c1 msg pk.keyId = env1 := congrArg Prod.fst (Except.ok.inj h1)
  have he2 : mkEnvelope P rng c2 msg pk.keyId = env2 := congrArg Prod.fst (Except.ok.inj h2)
  subst he1
  subst he2
  refine ⟨length_rngBytes rng c1 32, length_rngBytes rng (c1 + 32) 16, ?_, ?_, ?_, ?_⟩
  · show P.b64decode (P.b64encode (rngBytes rng (c1 + 32) 16)) = _
    exact P.b64_roundtrip _
  · show P.b64decode (P.b64encode (P.rsaOaepEncrypt pk.keyId (rngBytes rng c1 32))) = _
    exact P.b64_roundtrip _
  · intro h
    simp only [mkEnvelope] at h
    exact hiv (P.b64encode_injective h)
  · intro h
    simp only [mkEnvelope] at h
    exact hkey (P.rsaOaepEncrypt_injective hmatch (P.b64encode_injective h))

set_option maxRecDepth 100000 in
/-- Witness for C3 (amended): two concrete calls at distinct entropy
positions yield different `iv` and `encrypted_key` fields. -/
theorem claim_C3_fresh_key_iv_witness :
    (mkEnvelope toyPrims (fun i => if i < 48 then 0 else 1) 0 "hi" 5).iv
      ≠ (mkEnvelope toyPrims (fun i => if i < 48 then 0 else 1) 48 "hi" 5).iv ∧
    (mkEnvelope toyPrims (fun i => if i < 48 then 0 else 1) 0 "hi" 5).encrypted_key
      ≠ (mkEnvelope toyPrims (fun i => if i < 48 then 0 else 1) 48 "hi" 5).encrypted_key :=
  have h := claim_C3_fresh_key_iv toyPrims (fun i => if i < 48 then 0 else 1) 0 48
    "hi" "RSA:h" ⟨.rsa, 5⟩ 5
    (mkEnvelope toyPrims (fun i => if i < 48 then 0 else 1) 0 "hi" 5)
    (mkEnvelope toyPrims (fun i => if i < 48 then 0 else 1) 48 "hi" 5)
    48 96 (by decide) rfl (by decide) (by decide) (by decide) (by decide) (by decide)
  ⟨h.2.2.2.2.1, h.2.2.2.2.2⟩

/-- Counterexample for C5: two failing `decrypt_from_client` runs with
different causes (missing `encrypted_content` field vs AES-GCM tag
mismatch) surface errors with different messages, so the causes are
distinguishable to the caller. -/
theorem claim_C5_decrypt_err_distinguishable_cx :
    decrypt_from_client toyPrims 5 ⟨none, none, none, none⟩
      = .error (.valueError "Failed to decrypt message: 'encrypted_content'") ∧
    decrypt_from_client toyPrims 5
      ⟨some (toyB64encode [1, 2]), some (toyB64encode (5 :: List.replicate 32 0)),
       some (toyB64encode (List.replicate 16 0)), some (toyB64encode [9, 9])⟩
      = .error (.valueError "Failed to decrypt message: ") ∧
    (PyError.valueError "Failed to decrypt message: 'encrypted_content'")
      ≠ .valueError "Failed to decrypt message: " := by
  decide

/-- C5 (amended): every `decrypt_from_client` failure surfaces as the same
exception type — a `ValueError` whose message starts with
`Failed to decrypt message: ` — but the appended cause text varies with the
failing sub-step, so different causes remain distinguishable by message. -/
theorem claim_C5_decrypt_err_uniform (P : CryptoPrims) (priv : Nat)
    (d : EncDict) (e : PyError)
    (h : decrypt_from_client P priv d = .error e) :
    ∃ m, e = .valueError ("Failed to decrypt message: " ++ m) := by
  unfold decrypt_from_client at h
  cases hb : decryptBody P priv d with
  | ok s =>
    rw [hb] at h
    exact absurd h (by simp)
  | error e0 =>
    rw [hb] at h
    exact ⟨e0.str, (Except.error.inj h).symm⟩

/-- Witness for C5 (amended) at a concrete failing input. -/
theorem claim_C5_decrypt_err_uniform_witness :
    ∃ m, PyError.valueError "Failed to decrypt message: 'encrypted_content'"
      = .valueError ("Failed to decrypt message: " ++ m) :=
  claim_C5_decrypt_err_uniform toyPrims 5 ⟨none, none, none, none⟩
    (.valueError "Failed to decrypt message: 'encrypted_content'") (by decide)

/-- Counterexample for C9: a parseable non-RSA public key is not rejected
with a key-format error by the `encrypt_for_client` in use — the OAEP wrap
step raises `AttributeError` (the loaded key object has no `encrypt`
method), an unrelated error class. -/
theorem claim_C9_non_rsa_attr_error_cx :
    encrypt_for_client toyPrims (fun _ => 0) 0 "hi" "EC:x"
      = .error (.attributeError "object has no attribute 'encrypt'") ∧
    (PyError.attributeError "object has no attribute 'encrypt'")
      ≠ .valueError "Invalid public key format" := by
  decide

/-- C9 (amended): an unparseable PEM makes `encrypt_for_client` fail with
the parser's `ValueError` (a key-format rejection), and the helper
`load_public_key_from_pem` rejects both unparseable and non-RSA keys with
`ValueError("Invalid public key format")`; but for a parseable non-RSA key
the `encrypt_for_client` in use raises `AttributeError` instead of a
key-format error. -/
theorem claim_C9_key_format (P : CryptoPrims) (rng : Nat → Nat) (ctr : Nat)
    (msg pem : String) :
    (∀ m, P.loadPem pem = .error m →
      encrypt_for_client P rng ctr msg pem = .error (.valueError m) ∧
      load_public_key_from_pem P pem
        = .error (.valueError "Invalid public key format")) ∧
    (∀ pk, P.loadPem pem = .ok pk → pk.family = .other →
      encrypt_for_client P rng ctr msg pem
        = .error (.attributeError "object has no attribute 'encrypt'") ∧
      load_public_key_from_pem P pem
        = .error (.valueError "Invalid public key format")) := by
  constructor
  · intro m hm
    refine ⟨encrypt_for_client_loadErr P rng ctr msg pem m hm, ?_⟩
    unfold load_public_key_from_pem
    rw [hm]
  · intro pk hpk hfam
    refine ⟨encrypt_for_client_nonRsa P rng ctr msg pem pk hpk hfam, ?_⟩
    obtain ⟨fam, kid⟩ := pk
    simp only [PubKey.family] at hfam
    subst hfam
    unfold load_public_key_from_pem
    rw [hpk]

/-- Witness for C9 (amended) at a concrete unparseable key. -/
theorem claim_C9_key_format_witness :
    encrypt_for_client toyPrims (fun _ => 0) 0 "msg" "ZZZ"
      = .error (.valueError "Unable to load PEM file") ∧
    load_public_key_from_pem toyPrims "ZZZ"
      = .error (.valueError "Invalid public key format") :=
  (claim_C9_key_format toyPrims (fun _ => 0) 0 "msg" "ZZZ").1
    "Unable to load PEM file" (by decide)

/-! ### Claims about the stream relay -/

/-- C6: for an upstream sequence that ends by normal exhaustion, the
accumulated plaintext is the concatenation of all deltas, the emitted units
are exactly the per-delta envelopes in arrival order (each encrypting the
delta alone), and their number equals the number of chunks with non-empty
deltas. -/
theorem claim_C6_stream_accumulation (P : CryptoPrims) (rng : Nat → Nat)
    (ctr : Nat) (chunks : List Chunk) (conv : Option Nat) (pem : String)
    (pk : PubKey) (bt : Bool) (umid : Option Nat) (mn : Option String)
    (hpem : pem ≠ "") (hload : P.loadPem pem = .ok pk) (hfam : pk.family = .rsa)
    (herr : ∀ c ∈ chunks, chunkError c = none) :
    (stream_wrapper P rng ctr chunks none conv (some pem) bt umid mn).raised = none ∧
    (stream_wrapper P rng ctr chunks none conv (some pem) bt umid mn).accumulated
      = concatAll (chunks.map chunkContent) ∧
    (stream_wrapper P rng ctr chunks none conv (some pem) bt umid mn).emitted
      = encryptDeltas P rng pem (nonemptyContents chunks) ctr ∧
    (stream_wrapper P rng ctr chunks none conv (some pem) bt umid mn).emitted.length
      = (chunks.filter (fun c => !(chunkContent c == ""))).length := by
  have hl := streamLoop_clean P rng pem pk hpem hload hfam chunks "" false ctr herr
  refine ⟨?_, ?_, ?_, ?_⟩
  · simp only [stream_wrapper]
    rw [hl]
  · simp only [stream_wrapper]
    rw [hl, ← concatAll_nonempty_eq chunks]
    show "" ++ concatAll (nonemptyContents chunks) = concatAll (nonemptyContents chunks)
    exact str_empty_append _
  · simp only [stream_wrapper]
    rw [hl]
  · simp only [stream_wrapper]
    rw [hl]
    show (encryptDeltas P rng pem (nonemptyContents chunks) ctr).length = _
    rw [length_encryptDeltas P rng pem pk hload hfam, length_nonemptyContents]

set_option maxRecDepth 100000 in
/-- Witness for C6 at a concrete two-chunk stream. -/
theorem claim_C6_stream_accumulation_witness :
    (stream_wrapper toyPrims (fun _ => 0) 0 [mkContentChunk "Hel", mkContentChunk "lo"]
        none (some 1) (some "RSA:h") true (some 7) (some "m")).raised = none ∧
    (stream_wrapper toyPrims (fun _ => 0) 0 [mkContentChunk "Hel", mkContentChunk "lo"]
        none (some 1) (some "RSA:h") true (some 7) (some "m")).accumulated
      = concatAll ([mkContentChunk "Hel", mkContentChunk "lo"].map chunkContent) ∧
    (stream_wrapper toyPrims (fun _ => 0) 0 [mkContentChunk "Hel", mkContentChunk "lo"]
        none (some 1) (some "RSA:h") true (some 7) (some "m")).emitted
      = encryptDeltas toyPrims (fun _ => 0) "RSA:h"
          (nonemptyContents [mkContentChunk "Hel", mkContentChunk "lo"]) 0 ∧
    (stream_wrapper toyPrims (fun _ => 0) 0 [mkContentChunk "Hel", mkContentChunk "lo"]
        none (some 1) (some "RSA:h") true (some 7) (some "m")).emitted.length
      = ([mkContentChunk "Hel", mkContentChunk "lo"].filter
          (fun c => !(chunkContent c == ""))).length :=
  claim_C6_stream_accumulation toyPrims (fun _ => 0) 0
    [mkContentChunk "Hel", mkContentChunk "lo"] (some 1) "RSA:h" ⟨.rsa, 5⟩
    true (some 7) (some "m") (by decide) (by decide) rfl (by decide)

set_option maxRecDepth 100000 in
/-- Counterexample for C1: upstream emits `Hel`, `lo` and then raises; the
relay does NOT commit the partial plaintext (no save task is scheduled) and
does NOT emit a synthetic terminal chunk — it re-raises, leaving only the
two per-delta units already yielded. -/
theorem claim_C1_partial_failure_cx :
    (stream_wrapper toyPrims (fun _ => 0) 0 [mkContentChunk "Hel", mkContentChunk "lo"]
        (some (.valueError "boom")) (some 1) (some "RSA:h") true (some 7)
        (some "m")).scheduledSave = none ∧
    (stream_wrapper toyPrims (fun _ => 0) 0 [mkContentChunk "Hel", mkContentChunk "lo"]
        (some (.valueError "boom")) (some 1) (some "RSA:h") true (some 7)
        (some "m")).raised = some (.valueError "boom") ∧
    (stream_wrapper toyPrims (fun _ => 0) 0 [mkContentChunk "Hel", mkContentChunk "lo"]
        (some (.valueError "boom")) (some 1) (some "RSA:h") true (some 7)
        (some "m")).emitted.length = 2 ∧
    (stream_wrapper toyPrims (fun _ => 0) 0 [mkContentChunk "Hel", mkContentChunk "lo"]
        (some (.valueError "boom")) (some 1) (some "RSA:h") true (some 7)
        (some "m")).accumulated = "Hello" := by
  decide

/-- C1 (amended): when the upstream raises after the relay has emitted ≥ 1
content chunk, the exception is re-raised out of the wrapper: the partial
accumulated plaintext is NOT handed to the persistence sink (no save task is
scheduled), no synthetic terminal chunk is emitted, and the units already
yielded are exactly the per-delta envelopes of the chunks received before
the failure. -/
theorem claim_C1_upstream_error_behavior (P : CryptoPrims) (rng : Nat → Nat)
    (ctr : Nat) (chunks : List Chunk) (e : PyError) (conv : Option Nat)
    (pem : String) (pk : PubKey) (bt : Bool) (umid : Option Nat)
    (mn : Option String)
    (hpem : pem ≠ "") (hload : P.loadPem pem = .ok pk) (hfam : pk.family = .rsa)
    (herr : ∀ c ∈ chunks, chunkError c = none) :
    (stream_wrapper P rng ctr chunks (some e) conv (some pem) bt umid mn).raised
      = some e ∧
    (stream_wrapper P rng ctr chunks (some e) conv (some pem) bt umid mn).scheduledSave
      = none ∧
    (stream_wrapper P rng ctr chunks (some e) conv (some pem) bt umid mn).emitted
      = encryptDeltas P rng pem (nonemptyContents chunks) ctr ∧
    (stream_wrapper P rng ctr chunks (some e) conv (some pem) bt umid mn).accumulated
      = concatAll (chunks.map chunkContent) := by
  have hl := streamLoop_clean P rng pem pk hpem hload hfam chunks "" false ctr herr
  refine ⟨?_, ?_, ?_, ?_⟩
  · simp only [stream_wrapper]
    rw [hl]
  · simp only [stream_wrapper]
    rw [hl]
  · simp only [stream_wrapper]
    rw [hl]
  · simp only [stream_wrapper]
    rw [hl, ← concatAll_nonempty_eq chunks]
    show "" ++ concatAll (nonemptyContents chunks) = concatAll (nonemptyContents chunks)
    exact str_empty_append _

set_option maxRecDepth 100000 in
/-- Witness for C1 (amended) at a concrete one-chunk stream followed by an
upstream exception. -/
theorem claim_C1_upstream_error_behavior_witness :
    (stream_wrapper toyPrims (fun _ => 0) 0 [mkContentChunk "Hel"]
        (some (.valueError "boom")) (some 1) (some "RSA:h") true (some 7)
        (some "m")).raised = some (.valueError "boom") ∧
    (stream_wrapper toyPrims (fun _ => 0) 0 [mkContentChunk "Hel"]
        (some (.valueError "boom")) (some 1) (some "RSA:h") true (some 7)
        (some "m")).scheduledSave = none ∧
    (stream_wrapper toyPrims (fun _ => 0) 0 [mkContentChunk "Hel"]
        (some (.valueError "boom")) (some 1) (some "RSA:h") true (some 7)
        (some "m")).emitted
      = encryptDeltas toyPrims (fun _ => 0) "RSA:h"
          (nonemptyContents [mkContentChunk "Hel"]) 0 ∧
    (stream_wrapper toyPrims (fun _ => 0) 0 [mkContentChunk "Hel"]
        (some (.valueError "boom")) (some 1) (some "RSA:h") true (some 7)
        (some "m")).accumulated
      = concatAll ([mkContentChunk "Hel"].map chunkContent) :=
  claim_C1_upstream_error_behavior toyPrims (fun _ => 0) 0 [mkContentChunk "Hel"]
    (.valueError "boom") (some 1) "RSA:h" ⟨.rsa, 5⟩ true (some 7) (some "m")
    (by decide) (by decide) rfl (by decide)

set_option maxRecDepth 100000 in
/-- Counterexample for C2: with a recipient key present (a non-empty but
unparseable PEM) the per-chunk encryption failure does NOT drop only the
failing chunk — the wrapper raises, the stream aborts, and no unit (not
even for the second chunk) is emitted. -/
theorem claim_C2_drop_and_continue_cx :
    (stream_wrapper toyPrims (fun _ => 0) 0 [mkContentChunk "a", mkContentChunk "b"]
        none (some 1) (some "bad") true (some 7) (some "m")).raised
      = some (.valueError "Encryption/Yield failed: Unable to load PEM file") ∧
    (stream_wrapper toyPrims (fun _ => 0) 0 [mkContentChunk "a", mkContentChunk "b"]
        none (some 1) (some "bad") true (some 7) (some "m")).emitted = [] ∧
    (stream_wrapper toyPrims (fun _ => 0) 0 [mkContentChunk "a", mkContentChunk "b"]
        none (some 1) (some "bad") true (some 7) (some "m")).scheduledSave = none := by
  decide

/-- C2 (amended): any per-chunk encryption failure on the output path raises
`ValueError("Encryption/Yield failed: ...")` out of the wrapper, aborting
the whole stream — no unit is emitted and no save is scheduled; a missing
(or empty) recipient key likewise aborts the stream with
`ValueError("Cannot stream without encryption key")`. -/
theorem claim_C2_encrypt_failure_aborts (P : CryptoPrims) (rng : Nat → Nat)
    (ctr : Nat) (chunks : List Chunk) (ue : Option PyError) (conv : Option Nat)
    (bt : Bool) (umid : Option Nat) (mn : Option String) :
    (∀ pem m, pem ≠ "" → P.loadPem pem = .error m →
      (∀ c ∈ chunks, chunkError c = none) →
      (∃ c ∈ chunks, chunkContent c ≠ "") →
      (stream_wrapper P rng ctr chunks ue conv (some pem) bt umid mn).raised
        = some (.valueError ("Encryption/Yield failed: " ++ m)) ∧
      (stream_wrapper P rng ctr chunks ue conv (some pem) bt umid mn).emitted = [] ∧
      (stream_wrapper P rng ctr chunks ue conv (some pem) bt umid mn).scheduledSave
        = none) ∧
    ((∀ c ∈ chunks, chunkError c = none) →
      (∃ c ∈ chunks, chunkContent c ≠ "") →
      (stream_wrapper P rng ctr chunks ue conv none bt umid mn).raised
        = some (.valueError "Cannot stream without encryption key") ∧
      (stream_wrapper P rng ctr chunks ue conv none bt umid mn).emitted = [] ∧
      (stream_wrapper P rng ctr chunks ue conv none bt umid mn).scheduledSave
        = none) := by
  constructor
  · intro pem m hpem hload herr hex
    obtain ⟨he, hr⟩ :=
      streamLoop_encrypt_fails P rng pem m hpem hload chunks "" false ctr herr hex
    refine ⟨?_, ?_, ?_⟩
    · simp only [stream_wrapper]
      rw [hr]
    · simp only [stream_wrapper]
      rw [hr]
      exact he
    · simp only [stream_wrapper]
      rw [hr]
  · intro herr hex
    obtain ⟨he, hr⟩ :=
      streamLoop_no_key P rng none (Or.inl rfl) chunks "" false ctr herr hex
    refine ⟨?_, ?_, ?_⟩
    · simp only [stream_wrapper]
      rw [hr]
    · simp only [stream_wrapper]
      rw [hr]
      exact he
    · simp only [stream_wrapper]
      rw [hr]

/-- Witness for C2 (amended) at a concrete stream with a present but
unparseable recipient key. -/
theorem claim_C2_encrypt_failure_aborts_witness :
    (stream_wrapper toyPrims (fun _ => 0) 0 [mkContentChunk "x"]
        none (some 1) (some "bad") true (some 7) (some "m")).raised
      = some (.valueError "Encryption/Yield failed: Unable to load PEM file") ∧
    (stream_wrapper toyPrims (fun _ => 0) 0 [mkContentChunk "x"]
        none (some 1) (some "bad") true (some 7) (some "m")).emitted = [] ∧
    (stream_wrapper toyPrims (fun _ => 0) 0 [mkContentChunk "x"]
        none (some 1) (some "bad") true (some 7) (some "m")).scheduledSave = none :=
  (claim_C2_encrypt_failure_aborts toyPrims (fun _ => 0) 0 [mkContentChunk "x"]
      none (some 1) true (some 7) (some "m")).1
    "bad" "Unable to load PEM file" (by decide) (by decide) (by decide)
    ⟨mkContentChunk "x", by decide, by decide⟩

/-- C7: whenever the upstream terminates (by exhaustion or by raising) with
zero content chunks received, nothing is persisted — no save task is
scheduled — and no unit is emitted; the output sequence simply ends. -/
theorem claim_C7_zero_content_nothing_persisted (P : CryptoPrims)
    (rng : Nat → Nat) (ctr : Nat) (chunks : List Chunk) (ue : Option PyError)
    (conv : Option Nat) (key : Option String) (bt : Bool) (umid : Option Nat)
    (mn : Option String)
    (h : ∀ c ∈ chunks, chunkContent c = "") :
    (stream_wrapper P rng ctr chunks ue conv key bt umid mn).scheduledSave = none ∧
    (stream_wrapper P rng ctr chunks ue conv key bt umid mn).emitted = [] := by
  obtain ⟨he, hh⟩ := streamLoop_nocontent P rng key chunks "" false ctr h
  simp only [stream_wrapper]
  cases hr : (streamLoop P rng key chunks "" false ctr).raised with
  | some e => exact ⟨rfl, he⟩
  | none =>
    cases ue with
    | some e => exact ⟨rfl, he⟩
    | none =>
      constructor
      · show scheduleSave conv key bt umid mn
            (streamLoop P rng key chunks "" false ctr) = none
        unfold scheduleSave
        rw [hh]
        simp
      · exact he

/-- Witness for C7 at a concrete stream with one choice-less metadata chunk
followed by an upstream exception. -/
theorem claim_C7_zero_content_nothing_persisted_witness :
    (stream_wrapper toyPrims (fun _ => 0) 0 [⟨[], none⟩]
        (some (.valueError "x")) (some 1) (some "RSA:h") true (some 7)
        (some "m")).scheduledSave = none ∧
    (stream_wrapper toyPrims (fun _ => 0) 0 [⟨[], none⟩]
        (some (.valueError "x")) (some 1) (some "RSA:h") true (some 7)
        (some "m")).emitted = [] :=
  claim_C7_zero_content_nothing_persisted toyPrims (fun _ => 0) 0 [⟨[], none⟩]
    (some (.valueError "x")) (some 1) (some "RSA:h") true (some 7) (some "m")
    (by decide)

/-! ### Claims about the persistence sink -/

/-- C8: if the accumulated plaintext is empty or the owning user has no
public key, the background save fails, is swallowed inside the task — no
`StoredMessage` is written and no exception escapes back to the (already
closed) client stream. -/
theorem claim_C8_empty_or_keyless_save (P : CryptoPrims) (rng : Nat → Nat)
    (ctr : Nat) (convLookup : String → Option Conversation) (cid : String)
    (umid : Nat) (mn content key : String)
    (h : content = "" ∨ key = "") :
    (save_streamed_message P rng ctr convLookup cid umid mn content key).savedMessage
      = none ∧
    (save_streamed_message P rng ctr convLookup cid umid mn content key).raised
      = none := by
  rcases h with h | h
  · subst h
    simp [save_streamed_message, saveBody]
  · subst h
    by_cases hc : content = ""
    · subst hc
      simp [save_streamed_message, saveBody]
    · cases hcv : convLookup cid with
      | none => simp [save_streamed_message, saveBody, hc, hcv]
      | some conv => simp [save_streamed_message, saveBody, hc, hcv]

/-- Witness for C8 at a concrete empty-content save invocation. -/
theorem claim_C8_empty_or_keyless_save_witness :
    (save_streamed_message toyPrims (fun _ => 0) 0 (fun _ => some ⟨1, 2⟩)
        "c" 7 "m" "" "RSA:h").savedMessage = none ∧
    (save_streamed_message toyPrims (fun _ => 0) 0 (fun _ => some ⟨1, 2⟩)
        "c" 7 "m" "" "RSA:h").raised = none :=
  claim_C8_empty_or_keyless_save toyPrims (fun _ => 0) 0 (fun _ => some ⟨1, 2⟩)
    "c" 7 "m" "" "RSA:h" (Or.inl rfl)

/-! ### Claims about inbound message processing -/

theorem processMessages_error_status (P : CryptoPrims) (priv : Nat) :
    ∀ msgs e, processMessages P priv msgs = .error e → e.statusCode = 400 := by
  intro msgs
  induction msgs with
  | nil =>
    intro e h
    exact absurd h (by simp [processMessages])
  | cons m rest ih =>
    intro e h
    by_cases henc : m.is_encrypted = false
    · simp [processMessages, henc] at h
      rw [← h]
      rfl
    · have henc2 : m.is_encrypted = true := by
        cases hb : m.is_encrypted
        · exact absurd hb henc
        · rfl
      cases hec : m.encrypted_content with
      | none =>
        simp [processMessages, henc2, hec] at h
        rw [← h]
        rfl
      | some ec =>
        by_cases hece : ec = ""
        · simp [processMessages, henc2, hec, hece] at h
          rw [← h]
          rfl
        · cases hdec : decrypt_from_client P priv ⟨some ec, m.encrypted_key, m.iv, m.tag⟩ with
          | error de =>
            simp [processMessages, henc2, hec, hece, hdec] at h
            rw [← h]
            rfl
          | ok s =>
            by_cases hs : s = ""
            · simp only [processMessages, henc2, hec, hece, hdec, hs] at h
              simp at h
              exact ih e h
            · cases hrest : processMessages P priv rest with
              | error e2 =>
                simp [processMessages, henc2, hec, hece, hdec, hs, hrest] at h
                rw [← h]
                exact ih e2 hrest
              | ok ctx =>
                simp [processMessages, henc2, hec, hece, hdec, hs, hrest] at h

theorem processMessages_unencrypted_error (P : CryptoPrims) (priv : Nat) :
    ∀ msgs, (∃ m ∈ msgs, m.is_encrypted = false) →
      ∃ e, processMessages P priv msgs = .error e := by
  intro msgs
  induction msgs with
  | nil =>
    intro hex
    exact absurd hex (by simp)
  | cons m rest ih =>
    intro hex
    by_cases henc : m.is_encrypted = false
    · exact ⟨wrapMsgErr m ⟨400, "All messages must be encrypted"⟩,
        by simp [processMessages, henc]⟩
    · have hex2 : ∃ x ∈ rest, x.is_encrypted = false := by
        obtain ⟨x, hx, hxe⟩ := hex
        cases List.mem_cons.mp hx with
        | inl heq => exact absurd (heq ▸ hxe) henc
        | inr hmem => exact ⟨x, hmem, hxe⟩
      have henc2 : m.is_encrypted = true := by
        cases hb : m.is_encrypted
        · exact absurd hb henc
        · rfl
      obtain ⟨e2, he2⟩ := ih hex2
      cases hec : m.encrypted_content with
      | none =>
        exact ⟨wrapMsgErr m ⟨400, "Encrypted message missing required fields"⟩,
          by simp [processMessages, henc2, hec]⟩
      | some ec =>
        by_cases hece : ec = ""
        · exact ⟨wrapMsgErr m ⟨400, "Encrypted message missing required fields"⟩,
            by simp [processMessages, henc2, hec, hece]⟩
        · cases hdec : decrypt_from_client P priv ⟨some ec, m.encrypted_key, m.iv, m.tag⟩ with
          | error de =>
            exact ⟨wrapMsgErr m ⟨400, "Failed to decrypt message " ++ msgIdOrNA m⟩,
              by simp [processMessages, henc2, hec, hece, hdec]⟩
          | ok s =>
            by_cases hs : s = ""
            · exact ⟨e2, by simp [processMessages, henc2, hec, hece, hdec, hs, he2]⟩
            · exact ⟨e2, by simp [processMessages, henc2, hec, hece, hdec, hs, he2]⟩

theorem processMessages_ok_context (P : CryptoPrims) (priv : Nat) :
    ∀ msgs ctx, processMessages P priv msgs = .ok ctx →
      ctx = msgs.filterMap (contextOf P priv) ∧ ∀ p ∈ ctx, p.2 ≠ "" := by
  intro msgs
  induction msgs with
  | nil =>
    intro ctx h
    have hc : ctx = [] := (Except.ok.inj h).symm
    subst hc
    exact ⟨rfl, by simp⟩
  | cons m rest ih =>
    intro ctx h
    by_cases henc : m.is_encrypted = false
    · simp [processMessages, henc] at h
    · have henc2 : m.is_encrypted = true := by
        cases hb : m.is_encrypted
        · exact absurd hb henc
        · rfl
      cases hec : m.encrypted_content with
      | none => simp [processMessages, henc2, hec] at h
      | some ec =>
        by_cases hece : ec = ""
        · simp [processMessages, henc2, hec, hece] at h
        · cases hdec : decrypt_from_client P priv ⟨some ec, m.encrypted_key, m.iv, m.tag⟩ with
          | error de => simp [processMessages, henc2, hec, hece, hdec] at h
          | ok s =>
            by_cases hs : s = ""
            · simp only [processMessages, henc2, hec, hece, hdec, hs] at h
              simp at h
              obtain ⟨h1, h2⟩ := ih ctx h
              have hcm : contextOf P priv m = none := by
                simp [contextOf, henc2, hec, hece, hdec, hs]
              exact ⟨by rw [h1, List.filterMap_cons, hcm], h2⟩
            · cases hrest : processMessages P priv rest with
              | error e2 =>
                simp [processMessages, henc2, hec, hece, hdec, hs, hrest] at h
              | ok ctx2 =>
                simp [processMessages, henc2, hec, hece, hdec, hs, hrest] at h
                obtain ⟨h1, h2⟩ := ih ctx2 hrest
                have hcm : contextOf P priv m = some (m.role, s) := by
                  simp [contextOf, henc2, hec, hece, hdec, hs]
                constructor
                · rw [← h, h1, List.filterMap_cons, hcm]
                · intro p hp
                  rw [← h] at hp
                  cases List.mem_cons.mp hp with
                  | inl heq =>
                    rw [heq]
                    exact hs
                  | inr hmem => exact h2 p hmem

/-- C10: a request containing any message with `is_encrypted` absent or
false is rejected with an HTTP 400 client error before anything is
forwarded to the upstream generator (`chatUpstreamContext` is `none`); when
the offending message is reached first its detail embeds
`All messages must be encrypted`; and on success the upstream context holds
exactly the messages that decrypted to non-empty content, in order. -/
theorem claim_C10_all_messages_encrypted (P : CryptoPrims) (priv : Nat)
    (msgs : List ClientMsg) :
    ((∃ m ∈ msgs, m.is_encrypted = false) →
      ∃ e, processMessages P priv msgs = .error e ∧ e.statusCode = 400 ∧
        chatUpstreamContext P priv msgs = none) ∧
    (∀ m rest, m.is_encrypted = false →
      processMessages P priv (m :: rest)
        = .error (wrapMsgErr m ⟨400, "All messages must be encrypted"⟩) ∧
      (wrapMsgErr m ⟨400, "All messages must be encrypted"⟩).detail
        = "Error processing message " ++ msgIdOrNA m
          ++ ": 400: All messages must be encrypted") ∧
    (∀ ctx, processMessages P priv msgs = .ok ctx →
      ctx = msgs.filterMap (contextOf P priv) ∧ ∀ p ∈ ctx, p.2 ≠ "") := by
  refine ⟨?_, ?_, ?_⟩
  · intro hex
    obtain ⟨e, he⟩ := processMessages_unencrypted_error P priv msgs hex
    exact ⟨e, he, processMessages_error_status P priv msgs e he,
      by simp [chatUpstreamContext, he, Except.toOption]⟩
  · intro m rest henc
    constructor
    · simp [processMessages, henc]
    · show "Error processing message " ++ msgIdOrNA m ++ ": "
          ++ HTTPErr.str ⟨400, "All messages must be encrypted"⟩ = _
      rw [str_append_assoc]
      exact congrArg
        (fun t => "Error processing message " ++ msgIdOrNA m ++ t) (by decide)
  · exact fun ctx h => processMessages_ok_context P priv msgs ctx h

/-- Witness for C10 at a concrete one-message request whose message is
unencrypted. -/
theorem claim_C10_all_messages_encrypted_witness :
    ∃ e, processMessages toyPrims 5 [⟨"user", false, none, none, none, none, none⟩]
        = .error e ∧ e.statusCode = 400 ∧
      chatUpstreamContext toyPrims 5
        [⟨"user", false, none, none, none, none, none⟩] = none :=
  (claim_C10_all_messages_encrypted toyPrims 5
      [⟨"user", false, none, none, none, none, none⟩]).1
    ⟨⟨"user", false, none, none, none, none, none⟩, by decide, rfl⟩
